/-
Verification of the atomc core (crates/atomc-core) against its design
specification.  The pure parts of the Rust source (semantic validation,
diff-text parsing, fingerprinting) are embedded directly; every git
subprocess invocation is modelled through an oracle environment
`GitEnv` that maps the history of invocations already made, together
with the invocation being issued, to the outcome of that invocation,
so that repository drift between calls is expressible.  Each embedded
function also returns the trace of git invocations it issued.
-/
import Mathlib

namespace Atomc

/- ===== String helpers mirroring the Rust std string operations used
   by the source (str::trim, str::split, str::lines, str::split_whitespace,
   str::strip_prefix, slice join).  They are written over the character
   list so that they evaluate by kernel reduction. ===== -/

/-- Rust str::trim : drop leading and trailing whitespace characters. -/
def rustTrim (s : String) : String :=
  String.mk (((s.data.dropWhile Char.isWhitespace).reverse.dropWhile Char.isWhitespace).reverse)

/-- Rust str::is_empty on the trimmed text, as used by push_if_non_empty. -/
def isBlank (s : String) : Bool :=
  (rustTrim s).data.isEmpty

/-- Split a character list at every occurrence of the given character;
empty pieces are kept (Rust str::split(char)). -/
def splitCharAux (c : Char) : List Char → List Char → List String
  | acc, [] => [String.mk acc.reverse]
  | acc, x :: xs =>
    if x = c then String.mk acc.reverse :: splitCharAux c [] xs
    else splitCharAux c (x :: acc) xs

/-- Rust str::split(char) over a string. -/
def splitChar (c : Char) (s : String) : List String :=
  splitCharAux c [] s.data

/-- Rust str::lines : split at newline characters, drop one trailing empty
piece, and strip one trailing carriage return from each line. -/
def rustLines (s : String) : List String :=
  let parts := splitChar '\n' s
  let parts := if parts.getLast? = some "" then parts.dropLast else parts
  parts.map fun l =>
    if l.data.getLast? = some '\r' then String.mk l.data.dropLast else l

/-- Rust str::split_whitespace : maximal non-whitespace runs. -/
def splitWhitespace (s : String) : List String :=
  (splitCharAux ' ' [] (s.data.map fun c => if c.isWhitespace then ' ' else c)).filter
    fun t => ¬ t.data.isEmpty

/-- Strip a literal from the front of a character list
(Rust str::strip_prefix on string literals). -/
def dropLit : List Char → List Char → Option (List Char)
  | [], rest => some rest
  | _, [] => none
  | p :: ps, x :: xs => if x = p then dropLit ps xs else none

/-- Rust str::strip_prefix over strings. -/
def stripLit (p s : String) : Option String :=
  (dropLit p.data s.data).map String.mk

/-- Rust slice join with a separator (Vec::join). -/
def joinWith (sep : String) : List String → String
  | [] => ""
  | [x] => x
  | x :: y :: xs => x ++ sep ++ joinWith sep (y :: xs)

/- ===== UTF-8 encoding (Rust str::as_bytes; strings are UTF-8). ===== -/

/-- UTF-8 bytes of one Unicode scalar value. -/
def charUtf8 (c : Char) : List Nat :=
  let n := c.toNat
  if n < 0x80 then [n]
  else if n < 0x800 then
    [0xC0 ||| (n >>> 6), 0x80 ||| (n &&& 0x3F)]
  else if n < 0x10000 then
    [0xE0 ||| (n >>> 12), 0x80 ||| ((n >>> 6) &&& 0x3F), 0x80 ||| (n &&& 0x3F)]
  else
    [0xF0 ||| (n >>> 18), 0x80 ||| ((n >>> 12) &&& 0x3F),
     0x80 ||| ((n >>> 6) &&& 0x3F), 0x80 ||| (n &&& 0x3F)]

/-- Rust str::as_bytes : the UTF-8 byte sequence of the string. -/
def utf8Bytes (s : String) : List Nat :=
  s.data.flatMap charUtf8

/- ===== SHA-256 (the sha2 crate used by hash.rs), over naturals with
   explicit reduction modulo 2^32. ===== -/

/-- Right rotation of a 32-bit word. -/
def rotr (n x : Nat) : Nat :=
  ((x >>> n) ||| (x <<< (32 - n))) % 2 ^ 32

def shaCh (e f g : Nat) : Nat := (e &&& f) ^^^ ((e ^^^ 0xffffffff) &&& g)

def shaMaj (a b c : Nat) : Nat := (a &&& b) ^^^ (a &&& c) ^^^ (b &&& c)

def bigSig0 (x : Nat) : Nat := rotr 2 x ^^^ rotr 13 x ^^^ rotr 22 x

def bigSig1 (x : Nat) : Nat := rotr 6 x ^^^ rotr 11 x ^^^ rotr 25 x

def smallSig0 (x : Nat) : Nat := rotr 7 x ^^^ rotr 18 x ^^^ (x >>> 3)

def smallSig1 (x : Nat) : Nat := rotr 17 x ^^^ rotr 19 x ^^^ (x >>> 10)

/-- The 64 SHA-256 round constants, in decimal. -/
def shaK : List Nat :=
  [1116352408, 1899447441, 3049323471, 3921009573, 961987163, 1508970993,
   2453635748, 2870763221, 3624381080, 310598401, 607225278, 1426881987,
   1925078388, 2162078206, 2614888103, 3248222580, 3835390401, 4022224774,
   264347078, 604807628, 770255983, 1249150122, 1555081692, 1996064986,
   2554220882, 2821834349, 2952996808, 3210313671, 3336571891, 3584528711,
   113926993, 338241895, 666307205, 773529912, 1294757372, 1396182291,
   1695183700, 1986661051, 2177026350, 2456956037, 2730485921, 2820302411,
   3259730800, 3345764771, 3516065817, 3600352804, 4094571909, 275423344,
   430227734, 506948616, 659060556, 883997877, 958139571, 1322822218,
   1537002063, 1747873779, 1955562222, 2024104815, 2227730452, 2361852424,
   2428436474, 2756734187, 3204031479, 3329325298]

/-- Working registers a-h of the compression function. -/
structure ShaRegs where
  ra : Nat
  rb : Nat
  rc : Nat
  rd : Nat
  re : Nat
  rf : Nat
  rg : Nat
  rh : Nat

/-- Initial hash state H0, in decimal. -/
def shaH0 : ShaRegs :=
  ⟨1779033703, 3144134277, 1013904242, 2773480762,
   1359893119, 2600822924, 528734635, 1541459225⟩

/-- One compression round for constant k and schedule word w. -/
def shaRound (st : ShaRegs) (kw : Nat × Nat) : ShaRegs :=
  let t1 := (st.rh + bigSig1 st.re + shaCh st.re st.rf st.rg + kw.1 + kw.2) % 2 ^ 32
  let t2 := (bigSig0 st.ra + shaMaj st.ra st.rb st.rc) % 2 ^ 32
  ⟨(t1 + t2) % 2 ^ 32, st.ra, st.rb, st.rc, (st.rd + t1) % 2 ^ 32, st.re, st.rf, st.rg⟩

/-- Extend the 16 block words to the 64 schedule words. -/
def extendSchedule : Nat → List Nat → List Nat
  | 0, w => w
  | n + 1, w =>
    let l := w.length
    let next := (smallSig1 (w.getD (l - 2) 0) + w.getD (l - 7) 0 +
      smallSig0 (w.getD (l - 15) 0) + w.getD (l - 16) 0) % 2 ^ 32
    extendSchedule n (w ++ [next])

/-- Big-endian word from up to four bytes. -/
def bytesToWord (l : List Nat) : Nat :=
  l.foldl (fun acc b => acc * 256 + b) 0

/-- Chunk a byte list into 64-byte blocks. -/
def toBlocks (l : List Nat) : List (List Nat) :=
  if l.isEmpty then [] else l.take 64 :: toBlocks (l.drop 64)
termination_by l.length
decreasing_by
  simp only [List.length_drop]
  cases l with
  | nil => simp_all
  | cons x xs => simp; omega

/-- Chunk a block into 4-byte groups. -/
def toWordChunks (l : List Nat) : List (List Nat) :=
  if l.isEmpty then [] else l.take 4 :: toWordChunks (l.drop 4)
termination_by l.length
decreasing_by
  simp only [List.length_drop]
  cases l with
  | nil => simp_all
  | cons x xs => simp; omega

/-- SHA-256 padding: 0x80, zeros to 56 mod 64, then the 64-bit big-endian
bit length. -/
def shaPad (msg : List Nat) : List Nat :=
  let len := msg.length
  let z := (64 + 56 - ((len + 1) % 64)) % 64
  let bits := len * 8
  msg ++ [0x80] ++ List.replicate z 0 ++
    [(bits >>> 56) % 256, (bits >>> 48) % 256, (bits >>> 40) % 256, (bits >>> 32) % 256,
     (bits >>> 24) % 256, (bits >>> 16) % 256, (bits >>> 8) % 256, bits % 256]

/-- Compress one 64-byte block into the running hash state. -/
def compressBlock (h : ShaRegs) (block : List Nat) : ShaRegs :=
  let w := extendSchedule 48 ((toWordChunks block).map bytesToWord)
  let st := (shaK.zip w).foldl shaRound h
  ⟨(h.ra + st.ra) % 2 ^ 32, (h.rb + st.rb) % 2 ^ 32, (h.rc + st.rc) % 2 ^ 32,
   (h.rd + st.rd) % 2 ^ 32, (h.re + st.re) % 2 ^ 32, (h.rf + st.rf) % 2 ^ 32,
   (h.rg + st.rg) % 2 ^ 32, (h.rh + st.rh) % 2 ^ 32⟩

/-- The eight 32-bit output words of SHA-256 on a byte message. -/
def sha256Words (msg : List Nat) : List Nat :=
  let fin := (toBlocks (shaPad msg)).foldl compressBlock shaH0
  [fin.ra, fin.rb, fin.rc, fin.rd, fin.re, fin.rf, fin.rg, fin.rh]

/-- Big-endian bytes of a 32-bit word. -/
def wordBytes (w : Nat) : List Nat :=
  [(w >>> 24) % 256, (w >>> 16) % 256, (w >>> 8) % 256, w % 256]

/-- The 32 digest bytes of SHA-256 on a byte message. -/
def sha256Bytes (msg : List Nat) : List Nat :=
  (sha256Words msg).flatMap wordBytes

/-- The sixteen lowercase hex digit characters. -/
def hexChars : List Char :=
  "0123456789abcdef".data

def hexDigitChar (n : Nat) : Char := hexChars.getD n '0'

/-- Lowercase hex encoding of a byte list (the hex crate's encode). -/
def hexEncode (bs : List Nat) : List Char :=
  bs.flatMap fun b => [hexDigitChar (b / 16), hexDigitChar (b % 16)]

/-- hash.rs diff_hash: sha256 of the diff text's UTF-8 bytes, rendered as
"sha256:" followed by the lowercase hex digest. -/
def diff_hash (diff : String) : String :=
  "sha256:" ++ String.mk (hexEncode (sha256Bytes (utf8Bytes diff)))

/- ===== Data model (crates/atomc-core/src/types.rs, config.rs). ===== -/

/-- The fixed commit type vocabulary. -/
inductive CommitType
  | feat | fix | refactor | style | docs | test | chore | build | perf | ci
deriving DecidableEq

/-- A reserved hunk reference (types.rs Hunk). -/
structure Hunk where
  file : String
  header : String
  id : Option String
deriving DecidableEq

/-- One planned atomic commit (types.rs CommitUnit). -/
structure CommitUnit where
  id : String
  type_ : CommitType
  scope : Option String
  summary : String
  body : List String
  files : List String
  hunks : List Hunk
deriving DecidableEq

/-- types.rs ApplyStatus. -/
inductive ApplyStatus
  | planned | applied | skipped | failed
deriving DecidableEq

/-- types.rs ErrorDetail; the free-form JSON details payload is not used by
the apply engine and is left out. -/
structure ErrorDetail where
  code : String
  message : String
deriving DecidableEq

/-- types.rs ApplyResult. -/
structure ApplyResult where
  id : String
  status : ApplyStatus
  commit_hash : Option String
  error : Option ErrorDetail
deriving DecidableEq

/-- Where the diff came from (types.rs InputSource). -/
inductive InputSource
  | repo | diff
deriving DecidableEq

/-- config.rs DiffMode. -/
inductive DiffMode
  | worktree | staged | all
deriving DecidableEq

/- ===== Semantic validation (crates/atomc-core/src/semantic.rs). ===== -/

/-- semantic.rs SemanticValidationError; payload of io formatting is the
structured fields only. -/
inductive SemanticValidationError
  | emptyId (id : String)
  | summaryLength (id : String) (len : Nat)
  | bodyLineCount (id : String) (count : Nat)
  | bodyLineEmpty (id : String) (index : Nat)
  | scopeEmpty (id : String)
  | scopeMissing (id : String)
  | scopeInvalid (id : String)
deriving DecidableEq

/-- semantic.rs ScopePolicy. -/
inductive ScopePolicy
  | require | allow | warn
deriving DecidableEq

/-- semantic.rs SemanticWarning. -/
inductive SemanticWarning
  | scopeMissing (id : String)
deriving DecidableEq

/-- semantic.rs SemanticValidationReport. -/
structure SemanticValidationReport where
  warnings : List SemanticWarning
deriving DecidableEq

/-- semantic.rs is_kebab_case: non-empty, no leading or trailing hyphen,
only ascii lowercase letters, ascii digits and hyphens. -/
def is_kebab_case (value : String) : Bool :=
  if value.data.isEmpty || value.data.head? = some '-' || value.data.getLast? = some '-' then
    false
  else
    value.data.all fun ch => ('a' ≤ ch && ch ≤ 'z') || ('0' ≤ ch && ch ≤ '9') || ch = '-'

/-- semantic.rs validate_commit_unit: push each violation of one unit onto
the accumulators, in source order.  Vec::push is modelled as appending a
singleton. -/
def validate_commit_unit (unit : CommitUnit) (scope_policy : ScopePolicy)
    (errors : List SemanticValidationError) (warnings : List SemanticWarning) :
    List SemanticValidationError × List SemanticWarning :=
  let id := unit.id
  let errors := if (rustTrim unit.id).data.isEmpty then
    errors ++ [SemanticValidationError.emptyId id] else errors
  let summary_len := unit.summary.data.length
  let errors := if summary_len < 50 || summary_len > 72 then
    errors ++ [SemanticValidationError.summaryLength id summary_len] else errors
  let body_len := unit.body.length
  let errors := if body_len < 1 || body_len > 3 then
    errors ++ [SemanticValidationError.bodyLineCount id body_len] else errors
  let errors := errors ++ (unit.body.enum.filterMap fun p =>
    if (rustTrim p.2).data.isEmpty then some (SemanticValidationError.bodyLineEmpty id p.1)
    else none)
  match unit.scope with
  | some scope =>
    if (rustTrim scope).data.isEmpty then
      (errors ++ [SemanticValidationError.scopeEmpty id], warnings)
    else if !is_kebab_case scope then
      (errors ++ [SemanticValidationError.scopeInvalid id], warnings)
    else (errors, warnings)
  | none =>
    match scope_policy with
    | .require => (errors ++ [SemanticValidationError.scopeMissing id], warnings)
    | .warn => (errors, warnings ++ [SemanticWarning.scopeMissing id])
    | .allow => (errors, warnings)

/-- semantic.rs validate_commit_units: accumulate over every unit, then
reject exactly when some error was accumulated. -/
def validate_commit_units (units : List CommitUnit) (scope_policy : ScopePolicy) :
    Except (List SemanticValidationError) SemanticValidationReport :=
  let acc := units.foldl
    (fun acc unit => validate_commit_unit unit scope_policy acc.1 acc.2)
    (([], []) : List SemanticValidationError × List SemanticWarning)
  if acc.1.isEmpty then Except.ok ⟨acc.2⟩ else Except.error acc.1

/-- The violations and warnings one unit contributes on its own. -/
def unit_violations (unit : CommitUnit) (scope_policy : ScopePolicy) :
    List SemanticValidationError × List SemanticWarning :=
  validate_commit_unit unit scope_policy [] []

/- ===== Git engine (crates/atomc-core/src/git.rs). ===== -/

/-- git.rs GitError.  The io error payload of CommandIo is its message. -/
inductive GitError
  | commandFailed (cmd : String) (stderr : String)
  | commandIo (cmd : String) (message : String)
  | outputNotUtf8
  | diffHashMismatch (expected : String) (actual : String)
  | hunksNotSupported (id : String)
  | planFileMissing (id : String) (file : String)
  | stagedFilesMismatch (id : String) (expected : List String) (actual : List String)
  | stagedDiffEmpty (id : String)
deriving DecidableEq

/-- One git subprocess invocation, with the arguments the source passes.
Paths handed to reset, add and diff --no-index are already repo-joined. -/
inductive GitCmd
  | diffWorktree
  | diffStaged
  | statusPorcelain
  | diffNoIndex (path : String)
  | reset (files : List String)
  | add (files : List String)
  | diffStagedNameOnly
  | commit (header : String) (body : List String)
  | revParseHead
deriving DecidableEq

/-- The subprocess boundary: the outcome (stdout after the exit-status and
UTF-8 handling of run_git_with_extra_paths) of one git invocation, as a
function of the invocations already issued, so repository state may change
between calls. -/
abbrev GitEnv := List GitCmd → GitCmd → Except GitError String

/-- Issue one git invocation: extend the trace, ask the environment. -/
def run_git (env : GitEnv) (tr : List GitCmd) (cmd : GitCmd) :
    List GitCmd × Except GitError String :=
  (tr ++ [cmd], env tr cmd)

/-- git.rs ApplyRequest. -/
structure ApplyRequest where
  repo : String
  plan : List CommitUnit
  diff : String
  source : InputSource
  diff_mode : DiffMode
  include_untracked : Bool
  expected_diff_hash : Option String
  cleanup_on_error : Bool

/-- git.rs push_if_non_empty: keep a diff part only when its trimmed text
is non-empty. -/
def push_if_non_empty (target : List String) (diff : String) : List String :=
  if isBlank diff then target else target ++ [diff]

/-- git.rs normalize_diff_path: prefer the post-image path, strip one of
the a/ b/ markers, drop the null device and empty paths. -/
def normalize_diff_path (a_path b_path : Option String) : Option String :=
  match (match b_path with | some c => some c | none => a_path) with
  | none => none
  | some candidate =>
    let stripped :=
      match stripLit "b/" candidate with
      | some r => r
      | none =>
        match stripLit "a/" candidate with
        | some r => r
        | none => candidate
    if stripped == "/dev/null" || stripped.data.isEmpty then none else some stripped

/-- git.rs diff_files: the set of paths named by diff --git headers.  The
Rust HashSet is modelled as the list of inserted paths; only membership is
used downstream. -/
def diff_files (diff : String) : List String :=
  (rustLines diff).foldl
    (fun files line =>
      match stripLit "diff --git " line with
      | none => files
      | some rest =>
        let parts := splitWhitespace rest
        match normalize_diff_path parts[0]? parts[1]? with
        | some path => files ++ [path]
        | none => files)
    []

/-- The parsing loop of git.rs list_untracked_files: NUL-separated status
entries, keep those marked "?? ", repo-joined. -/
def parse_untracked (repo output : String) : List String :=
  (splitChar '\x00' output).foldl
    (fun paths entry =>
      if entry.data.isEmpty then paths
      else
        match stripLit "?? " entry with
        | some rest => paths ++ [repo ++ "/" ++ rest]
        | none => paths)
    []

/-- git.rs list_untracked_files: paths of status entries marked "?? ",
repo-joined. -/
def list_untracked_files (env : GitEnv) (tr : List GitCmd) (repo : String) :
    List GitCmd × Except GitError (List String) :=
  match run_git env tr .statusPorcelain with
  | (tr1, .error e) => (tr1, .error e)
  | (tr1, .ok output) => (tr1, .ok (parse_untracked repo output))

/-- The mode-specific phase of git.rs compute_diff: collect the worktree
and staged parts the mode asks for, in source order. -/
def mode_parts (env : GitEnv) (tr : List GitCmd) (mode : DiffMode) :
    List GitCmd × Except GitError (List String) :=
  match mode with
  | .worktree =>
    match run_git env tr .diffWorktree with
    | (tr1, .error e) => (tr1, .error e)
    | (tr1, .ok d) => (tr1, .ok (push_if_non_empty [] d))
  | .staged =>
    match run_git env tr .diffStaged with
    | (tr1, .error e) => (tr1, .error e)
    | (tr1, .ok d) => (tr1, .ok (push_if_non_empty [] d))
  | .all =>
    match run_git env tr .diffWorktree with
    | (tr1, .error e) => (tr1, .error e)
    | (tr1, .ok d) =>
      match run_git env tr1 .diffStaged with
      | (tr2, .error e) => (tr2, .error e)
      | (tr2, .ok s) => (tr2, .ok (push_if_non_empty (push_if_non_empty [] d) s))

/-- The untracked phase of git.rs compute_diff: diff each untracked path
against the null device and append the non-blank results. -/
def untracked_diffs (env : GitEnv) :
    List GitCmd → List String → List String →
    List GitCmd × Except GitError (List String)
  | tr, parts, [] => (tr, .ok parts)
  | tr, parts, p :: ps =>
    match run_git env tr (.diffNoIndex p) with
    | (tr1, .error e) => (tr1, .error e)
    | (tr1, .ok d) => untracked_diffs env tr1 (push_if_non_empty parts d) ps

/-- git.rs compute_diff: mode parts, then untracked parts when requested,
joined with a newline. -/
def compute_diff (env : GitEnv) (tr : List GitCmd) (repo : String)
    (mode : DiffMode) (include_untracked : Bool) :
    List GitCmd × Except GitError String :=
  match mode_parts env tr mode with
  | (tr1, .error e) => (tr1, .error e)
  | (tr1, .ok parts) =>
    if include_untracked then
      match list_untracked_files env tr1 repo with
      | (tr2, .error e) => (tr2, .error e)
      | (tr2, .ok paths) =>
        match untracked_diffs env tr2 parts paths with
        | (tr3, .error e) => (tr3, .error e)
        | (tr3, .ok parts2) => (tr3, .ok (joinWith "\n" parts2))
    else (tr1, .ok (joinWith "\n" parts))

/-- git.rs verify_diff_hash: skipped for caller-supplied diffs; otherwise
recompute the diff, fingerprint it and compare to the expected token. -/
def verify_diff_hash (env : GitEnv) (tr : List GitCmd) (repo : String)
    (source : InputSource) (diff_mode : DiffMode) (include_untracked : Bool)
    (expected : String) : List GitCmd × Except GitError Unit :=
  match source with
  | .diff => (tr, .ok ())
  | .repo =>
    match compute_diff env tr repo diff_mode include_untracked with
    | (tr1, .error e) => (tr1, .error e)
    | (tr1, .ok current) =>
      let actual := diff_hash current
      if actual != expected then
        (tr1, .error (.diffHashMismatch expected actual))
      else (tr1, .ok ())

/-- git.rs stage_files: nothing for an empty file list, else reset then
add exactly those paths. -/
def stage_files (env : GitEnv) (tr : List GitCmd) (files : List String) :
    List GitCmd × Except GitError Unit :=
  if files.isEmpty then (tr, .ok ())
  else
    match run_git env tr (.reset files) with
    | (tr1, .error e) => (tr1, .error e)
    | (tr1, .ok _) =>
      match run_git env tr1 (.add files) with
      | (tr2, .error e) => (tr2, .error e)
      | (tr2, .ok _) => (tr2, .ok ())

/-- git.rs reset_files: nothing for an empty file list, else reset those
paths. -/
def reset_files (env : GitEnv) (tr : List GitCmd) (files : List String) :
    List GitCmd × Except GitError Unit :=
  if files.isEmpty then (tr, .ok ())
  else
    match run_git env tr (.reset files) with
    | (tr1, .error e) => (tr1, .error e)
    | (tr1, .ok _) => (tr1, .ok ())

/-- The parsing loop of git.rs list_staged_files: NUL-separated entries,
empty ones skipped. -/
def parse_staged (output : String) : List String :=
  (splitChar '\x00' output).filter fun entry => !entry.data.isEmpty

/-- git.rs list_staged_files: NUL-separated name-only staged diff. -/
def list_staged_files (env : GitEnv) (tr : List GitCmd) :
    List GitCmd × Except GitError (List String) :=
  match run_git env tr .diffStagedNameOnly with
  | (tr1, .error e) => (tr1, .error e)
  | (tr1, .ok output) => (tr1, .ok (parse_staged output))

/-- git.rs verify_staged_files: the staged set must be non-empty and a
subset of the unit's declared files.  HashSet subset and emptiness are
modelled over the underlying lists by membership. -/
def verify_staged_files (env : GitEnv) (tr : List GitCmd) (unit : CommitUnit) :
    List GitCmd × Except GitError Unit :=
  match list_staged_files env tr with
  | (tr1, .error e) => (tr1, .error e)
  | (tr1, .ok staged) =>
    if staged.isEmpty then (tr1, .error (.stagedDiffEmpty unit.id))
    else
      if !(staged.all fun f => unit.files.contains f) || staged.isEmpty then
        (tr1, .error (.stagedFilesMismatch unit.id unit.files staged))
      else (tr1, .ok ())

/-- git.rs commit_type_str. -/
def commit_type_str (commit_type : CommitType) : String :=
  match commit_type with
  | .feat => "feat"
  | .fix => "fix"
  | .refactor => "refactor"
  | .style => "style"
  | .docs => "docs"
  | .test => "test"
  | .chore => "chore"
  | .build => "build"
  | .perf => "perf"
  | .ci => "ci"

/-- git.rs commit_header: "<type>[<scope>]: <summary>" when a scope is
present, else "<type>: <summary>". -/
def commit_header (unit : CommitUnit) : String :=
  let type_str := commit_type_str unit.type_
  match unit.scope with
  | some scope => type_str ++ "[" ++ scope ++ "]: " ++ unit.summary
  | none => type_str ++ ": " ++ unit.summary

/-- git.rs commit_unit: commit with the built header and each body line as
a separate message paragraph, then resolve HEAD and trim it. -/
def commit_unit (env : GitEnv) (tr : List GitCmd) (unit : CommitUnit) :
    List GitCmd × Except GitError String :=
  let header := commit_header unit
  match run_git env tr (.commit header unit.body) with
  | (tr1, .error e) => (tr1, .error e)
  | (tr1, .ok _) =>
    match run_git env tr1 .revParseHead with
    | (tr2, .error e) => (tr2, .error e)
    | (tr2, .ok hash) => (tr2, .ok (rustTrim hash))

/-- The and_then chain of git.rs apply_plan for one unit: stage, verify
the staged set, then commit. -/
def stage_verify_commit (env : GitEnv) (tr : List GitCmd) (unit : CommitUnit)
    (file_paths : List String) : List GitCmd × Except GitError String :=
  match stage_files env tr file_paths with
  | (tr1, .error e) => (tr1, .error e)
  | (tr1, .ok _) =>
    match verify_staged_files env tr1 unit with
    | (tr2, .error e) => (tr2, .error e)
    | (tr2, .ok _) => commit_unit env tr2 unit

/-- The per-unit loop of git.rs apply_plan, with the result accumulator. -/
def apply_plan_units (env : GitEnv) (request : ApplyRequest)
    (expected_hash : String) (dfiles : List String) :
    List GitCmd → List CommitUnit → List ApplyResult →
    List GitCmd × Except GitError (List ApplyResult)
  | tr, [], results => (tr, .ok results)
  | tr, unit :: rest, results =>
    match verify_diff_hash env tr request.repo request.source request.diff_mode
        request.include_untracked expected_hash with
    | (tr1, .error e) => (tr1, .error e)
    | (tr1, .ok _) =>
      if !unit.hunks.isEmpty then (tr1, .error (.hunksNotSupported unit.id))
      else
        match unit.files.find? (fun file => !dfiles.contains file) with
        | some file => (tr1, .error (.planFileMissing unit.id file))
        | none =>
          let file_paths := unit.files.map fun file => request.repo ++ "/" ++ file
          match stage_verify_commit env tr1 unit file_paths with
          | (tr2, .ok hash) =>
            apply_plan_units env request expected_hash dfiles tr2 rest
              (results ++ [{ id := unit.id, status := ApplyStatus.applied,
                             commit_hash := some hash, error := none }])
          | (tr2, .error e) =>
            if request.cleanup_on_error then
              ((reset_files env tr2 file_paths).1, .error e)
            else (tr2, .error e)

/-- git.rs apply_plan: default the expected token to the fingerprint of
the supplied diff, parse the diff's file set, verify, then run the unit
loop. -/
def apply_plan (env : GitEnv) (tr : List GitCmd) (request : ApplyRequest) :
    List GitCmd × Except GitError (List ApplyResult) :=
  let expected_hash := request.expected_diff_hash.getD (diff_hash request.diff)
  let dfiles := diff_files request.diff
  match verify_diff_hash env tr request.repo request.source request.diff_mode
      request.include_untracked expected_hash with
  | (tr1, .error e) => (tr1, .error e)
  | (tr1, .ok _) => apply_plan_units env request expected_hash dfiles tr1 request.plan []

/-- Commands issued only by compute_diff (diff recomputation). -/
def isDiffQueryCmd : GitCmd → Bool
  | .diffWorktree => true
  | .diffStaged => true
  | .statusPorcelain => true
  | .diffNoIndex _ => true
  | _ => false

/-- Commands that create a commit. -/
def isCommitCmd : GitCmd → Bool
  | .commit _ _ => true
  | _ => false

/- ===== Concrete inputs used by the witness theorems. ===== -/

/-- Environment whose staged name-only read reports exactly a.txt. -/
def envStagedOne : GitEnv := fun _ cmd =>
  match cmd with
  | GitCmd.diffStagedNameOnly => Except.ok "a.txt\x00"
  | _ => Except.ok ""

/-- Environment on which a one-unit apply for a.txt fully succeeds. -/
def envAllOk : GitEnv := fun _ cmd =>
  match cmd with
  | GitCmd.diffStagedNameOnly => Except.ok "a.txt\x00"
  | GitCmd.revParseHead => Except.ok "abc123\n"
  | _ => Except.ok ""

/-- Environment whose git add invocations fail. -/
def envAddFails : GitEnv := fun _ cmd =>
  match cmd with
  | GitCmd.add _ => Except.error (GitError.commandFailed "git add" "boom")
  | _ => Except.ok ""

/-- Environment whose worktree diff is the text X. -/
def envWorktreeX : GitEnv := fun _ cmd =>
  match cmd with
  | GitCmd.diffWorktree => Except.ok "X"
  | _ => Except.ok ""

/-- Environment with one worktree part, one staged part and one untracked
file. -/
def envDiffAll : GitEnv := fun _ cmd =>
  match cmd with
  | GitCmd.diffWorktree => Except.ok "W"
  | GitCmd.diffStaged => Except.ok "S"
  | GitCmd.statusPorcelain => Except.ok "?? u.txt\x00"
  | GitCmd.diffNoIndex _ => Except.ok "U"
  | _ => Except.ok ""

/-- Environment answering every invocation with empty output. -/
def envEmptyOut : GitEnv := fun _ _ => Except.ok ""

def unitA : CommitUnit :=
  { id := "u1", type_ := CommitType.feat, scope := some "core",
    summary := "add the core apply engine with staged set verification",
    body := ["body line"], files := ["a.txt"], hunks := [] }

def unitAB : CommitUnit := { unitA with id := "u2", files := ["a.txt", "b.txt"] }

def unitHunks : CommitUnit :=
  { unitA with id := "u3", hunks := [{ file := "a.txt", header := "@@", id := none }] }

def unitNoFiles : CommitUnit := { unitA with id := "u4", files := [] }

def unitNoScope : CommitUnit := { unitA with id := "u5", scope := none }

def unitShort : CommitUnit := { unitA with id := "u6", summary := "too short" }

def diffA : String :=
  "diff --git a/a.txt b/a.txt\nindex 000..111 100644\n--- a/a.txt\n+++ b/a.txt\n@@ -1 +1 @@\n-x\n+y\n"

def reqDiffA : ApplyRequest :=
  { repo := "repo", plan := [unitA], diff := diffA, source := InputSource.diff,
    diff_mode := DiffMode.all, include_untracked := false,
    expected_diff_hash := some "tok", cleanup_on_error := false }

def reqHunksCleanup : ApplyRequest :=
  { reqDiffA with plan := [unitHunks], cleanup_on_error := true }

def reqCleanup : ApplyRequest := { reqDiffA with cleanup_on_error := true }

def reqRepoX : ApplyRequest :=
  { repo := "repo", plan := [unitA], diff := "X", source := InputSource.repo,
    diff_mode := DiffMode.worktree, include_untracked := false,
    expected_diff_hash := some "tok", cleanup_on_error := false }

def reqNoFiles : ApplyRequest := { reqDiffA with plan := [unitNoFiles] }

/- ===== Helper lemmas: semantic validation. ===== -/

theorem mem_body_line_errors {e : SemanticValidationError} {id : String}
    {body : List String}
    (h : e ∈ body.enum.filterMap fun p =>
      if (rustTrim p.2).data.isEmpty then
        some (SemanticValidationError.bodyLineEmpty id p.1)
      else none) :
    ∃ idx, e = SemanticValidationError.bodyLineEmpty id idx := by
  simp only [List.mem_filterMap] at h
  obtain ⟨⟨i, line⟩, hmem, hf⟩ := h
  by_cases hb : (rustTrim line).data.isEmpty <;> simp [hb] at hf
  exact ⟨i, hf.symm⟩

theorem validate_commit_unit_append (u : CommitUnit) (p : ScopePolicy)
    (es : List SemanticValidationError) (ws : List SemanticWarning) :
    validate_commit_unit u p es ws =
      (es ++ (unit_violations u p).1, ws ++ (unit_violations u p).2) := by
  cases hs : u.scope with
  | none =>
    cases p <;>
      (simp only [unit_violations, validate_commit_unit, hs]
       split_ifs <;> simp [List.append_assoc])
  | some sc =>
    simp only [unit_violations, validate_commit_unit, hs]
    split_ifs <;> simp [List.append_assoc]

theorem validate_units_foldl (units : List CommitUnit) (p : ScopePolicy)
    (es : List SemanticValidationError) (ws : List SemanticWarning) :
    units.foldl (fun acc u => validate_commit_unit u p acc.1 acc.2) (es, ws) =
      (es ++ units.flatMap (fun u => (unit_violations u p).1),
       ws ++ units.flatMap (fun u => (unit_violations u p).2)) := by
  induction units generalizing es ws with
  | nil => simp
  | cons u us ih =>
    simp only [List.foldl_cons, List.flatMap_cons]
    rw [validate_commit_unit_append, ih]
    simp [List.append_assoc]

/-- Membership of a SummaryLength violation in one unit's violations,
characterized. -/
theorem summaryLength_mem (u : CommitUnit) (p : ScopePolicy) (i : String) (l : Nat) :
    SemanticValidationError.summaryLength i l ∈ (unit_violations u p).1 ↔
      (i = u.id ∧ l = u.summary.data.length ∧
        (u.summary.data.length < 50 ∨ 72 < u.summary.data.length)) := by
  cases hs : u.scope with
  | none =>
    cases p <;>
      (simp only [unit_violations, validate_commit_unit, hs]
       split_ifs <;>
         simp_all [List.mem_append, List.mem_filterMap, Option.ite_none_right_eq_some] <;>
         omega)
  | some sc =>
    simp only [unit_violations, validate_commit_unit, hs]
    split_ifs <;>
      simp_all [List.mem_append, List.mem_filterMap, Option.ite_none_right_eq_some] <;>
      omega

/-- C5: validate_commit_units never short-circuits: the outcome is the
concatenation, over every unit in order, of the violations and warnings
that unit contributes on its own; it is an error exactly when some unit
contributed an error-class violation, carrying the full accumulated list,
and otherwise carries all accumulated warnings. -/
theorem atomc_C5 (units : List CommitUnit) (p : ScopePolicy) :
    validate_commit_units units p =
      if units.flatMap (fun u => (unit_violations u p).1) = [] then
        Except.ok ⟨units.flatMap fun u => (unit_violations u p).2⟩
      else Except.error (units.flatMap fun u => (unit_violations u p).1) := by
  unfold validate_commit_units
  rw [validate_units_foldl]
  by_cases h : units.flatMap (fun u => (unit_violations u p).1) = [] <;>
    simp [h, List.isEmpty_iff]

/-- C6: for a unit with no scope, the scope outcome depends only on the
policy: Require adds exactly one scope-missing error after the unit's other
violations and no warning; Warn adds exactly one scope-missing warning and
the same errors as Allow; Allow adds neither; and a unit whose only issue
is the missing scope is accepted under Warn (with one warning) and Allow,
and rejected under Require. -/
theorem atomc_C6 (u : CommitUnit) (h : u.scope = none) :
    (unit_violations u ScopePolicy.require).1 =
      (unit_violations u ScopePolicy.allow).1 ++ [SemanticValidationError.scopeMissing u.id]
    ∧ (unit_violations u ScopePolicy.require).2 = []
    ∧ (unit_violations u ScopePolicy.warn).1 = (unit_violations u ScopePolicy.allow).1
    ∧ (unit_violations u ScopePolicy.warn).2 = [SemanticWarning.scopeMissing u.id]
    ∧ (unit_violations u ScopePolicy.allow).2 = []
    ∧ ((unit_violations u ScopePolicy.allow).1 = [] →
        validate_commit_units [u] ScopePolicy.require =
          Except.error [SemanticValidationError.scopeMissing u.id]
        ∧ validate_commit_units [u] ScopePolicy.warn =
          Except.ok ⟨[SemanticWarning.scopeMissing u.id]⟩
        ∧ validate_commit_units [u] ScopePolicy.allow = Except.ok ⟨[]⟩) := by
  have hreq : (unit_violations u ScopePolicy.require).1 =
      (unit_violations u ScopePolicy.allow).1 ++ [SemanticValidationError.scopeMissing u.id] := by
    simp only [unit_violations, validate_commit_unit, h]
    all_goals first
    | (split_ifs <;> simp)
    | simp
  have hreqw : (unit_violations u ScopePolicy.require).2 = [] := by
    simp only [unit_violations, validate_commit_unit, h]
    all_goals first
    | (split_ifs <;> simp)
    | simp
  have hwarn : (unit_violations u ScopePolicy.warn).1 = (unit_violations u ScopePolicy.allow).1 := by
    simp only [unit_violations, validate_commit_unit, h]
    all_goals first
    | (split_ifs <;> simp)
    | simp
  have hwarnw : (unit_violations u ScopePolicy.warn).2 = [SemanticWarning.scopeMissing u.id] := by
    simp only [unit_violations, validate_commit_unit, h]
    all_goals first
    | (split_ifs <;> simp)
    | simp
  have hallow : (unit_violations u ScopePolicy.allow).2 = [] := by
    simp only [unit_violations, validate_commit_unit, h]
    all_goals first
    | (split_ifs <;> simp)
    | simp
  refine ⟨hreq, hreqw, hwarn, hwarnw, hallow, fun hz => ?_⟩
  have hu : ∀ p : ScopePolicy, validate_commit_units [u] p =
      if (unit_violations u p).1 = [] then Except.ok ⟨(unit_violations u p).2⟩
      else Except.error (unit_violations u p).1 := by
    intro p
    unfold validate_commit_units
    rw [show ([u] : List CommitUnit).foldl
        (fun acc x => validate_commit_unit x p acc.1 acc.2) ([], []) =
        validate_commit_unit u p [] [] from rfl]
    rw [show validate_commit_unit u p [] [] = unit_violations u p from rfl]
    by_cases hc : (unit_violations u p).1 = [] <;> simp [hc, List.isEmpty_iff]
  refine ⟨?_, ?_, ?_⟩
  · rw [hu ScopePolicy.require, hreq, hz, hreqw]
    simp
  · rw [hu ScopePolicy.warn, hwarn, hz, hwarnw]
    simp
  · rw [hu ScopePolicy.allow, hz, hallow]
    simp

/-- C7: a unit's violations contain a SummaryLength entry exactly when the
summary's Unicode scalar count is below 50 or above 72, and any
SummaryLength entry carries the unit's id and that actual scalar count; at
exactly 50 or 72 scalars no SummaryLength violation is produced. -/
theorem atomc_C7 (u : CommitUnit) (p : ScopePolicy) :
    ((SemanticValidationError.summaryLength u.id u.summary.data.length ∈
        (unit_violations u p).1) ↔
      (u.summary.data.length < 50 ∨ 72 < u.summary.data.length))
    ∧ (∀ i l, SemanticValidationError.summaryLength i l ∈ (unit_violations u p).1 →
        i = u.id ∧ l = u.summary.data.length)
    ∧ ((u.summary.data.length = 50 ∨ u.summary.data.length = 72) →
        ∀ i l, SemanticValidationError.summaryLength i l ∉ (unit_violations u p).1) := by
  refine ⟨?_, ?_, ?_⟩
  · rw [summaryLength_mem]
    constructor
    · rintro ⟨-, -, hc⟩
      exact hc
    · intro hc
      exact ⟨rfl, rfl, hc⟩
  · intro i l hmem
    have := (summaryLength_mem u p i l).mp hmem
    exact ⟨this.1, this.2.1⟩
  · intro hb i l hmem
    have := (summaryLength_mem u p i l).mp hmem
    omega

/-- C6 witness: a concrete scope-less unit run through the policy
comparison. -/
theorem atomc_C6_witness :
    unitNoScope.scope = none
    ∧ ((unit_violations unitNoScope ScopePolicy.require).1 =
        (unit_violations unitNoScope ScopePolicy.allow).1 ++
          [SemanticValidationError.scopeMissing unitNoScope.id]
    ∧ (unit_violations unitNoScope ScopePolicy.require).2 = []
    ∧ (unit_violations unitNoScope ScopePolicy.warn).1 =
        (unit_violations unitNoScope ScopePolicy.allow).1
    ∧ (unit_violations unitNoScope ScopePolicy.warn).2 =
        [SemanticWarning.scopeMissing unitNoScope.id]
    ∧ (unit_violations unitNoScope ScopePolicy.allow).2 = []
    ∧ ((unit_violations unitNoScope ScopePolicy.allow).1 = [] →
        validate_commit_units [unitNoScope] ScopePolicy.require =
          Except.error [SemanticValidationError.scopeMissing unitNoScope.id]
        ∧ validate_commit_units [unitNoScope] ScopePolicy.warn =
          Except.ok ⟨[SemanticWarning.scopeMissing unitNoScope.id]⟩
        ∧ validate_commit_units [unitNoScope] ScopePolicy.allow = Except.ok ⟨[]⟩)) :=
  ⟨rfl, atomc_C6 unitNoScope rfl⟩

/-- C7 witness: the nine-scalar summary "too short" produces a
SummaryLength violation carrying length nine. -/
theorem atomc_C7_witness :
    SemanticValidationError.summaryLength "u6" 9 ∈
      (unit_violations unitShort ScopePolicy.allow).1 :=
  (atomc_C7 unitShort ScopePolicy.allow).1.mpr (Or.inl (by decide))

/- ===== Helper lemmas: fingerprinting. ===== -/

theorem wordBytes_lt {b w : Nat} (h : b ∈ wordBytes w) : b < 256 := by
  simp only [wordBytes, List.mem_cons, List.not_mem_nil, or_false] at h
  rcases h with h | h | h | h <;> omega

theorem sha256Bytes_length (msg : List Nat) : (sha256Bytes msg).length = 32 := by
  simp [sha256Bytes, sha256Words, wordBytes]

theorem sha256Bytes_lt {b : Nat} (msg : List Nat) (h : b ∈ sha256Bytes msg) : b < 256 := by
  simp only [sha256Bytes, List.mem_flatMap] at h
  obtain ⟨w, hw, hb⟩ := h
  exact wordBytes_lt hb

theorem hexDigitChar_mem {n : Nat} (h : n < 16) : hexDigitChar n ∈ hexChars := by
  interval_cases n <;> decide

theorem hexEncode_length (bs : List Nat) : (hexEncode bs).length = 2 * bs.length := by
  induction bs with
  | nil => simp [hexEncode]
  | cons b bs ih =>
    simp only [hexEncode, List.flatMap_cons, List.length_append] at ih ⊢
    simp at ih ⊢
    omega

theorem hexEncode_mem (bs : List Nat) (hb : ∀ b ∈ bs, b < 256) :
    ∀ c ∈ hexEncode bs, c ∈ hexChars := by
  intro c hc
  simp only [hexEncode, List.mem_flatMap] at hc
  obtain ⟨b, hbm, hcb⟩ := hc
  have hlt := hb b hbm
  simp only [List.mem_cons, List.not_mem_nil, or_false] at hcb
  rcases hcb with rfl | rfl
  · exact hexDigitChar_mem (by omega)
  · exact hexDigitChar_mem (by omega)

theorem diff_hash_data_length (s : String) : (diff_hash s).data.length = 71 := by
  have h1 : (diff_hash s).data = "sha256:".data ++ hexEncode (sha256Bytes (utf8Bytes s)) := rfl
  rw [h1, List.length_append, hexEncode_length, sha256Bytes_length]
  decide

/-- C9: the fingerprint is a pure function of the diff's byte content -
equal byte sequences give equal tokens - and every token is the fixed
scheme marker "sha256:" followed by a 64-character lowercase hex digest. -/
theorem atomc_C9 (s : String) :
    (∀ t : String, utf8Bytes t = utf8Bytes s → diff_hash t = diff_hash s)
    ∧ ∃ d : List Char, diff_hash s = "sha256:" ++ String.mk d
        ∧ d.length = 64 ∧ ∀ c ∈ d, c ∈ hexChars := by
  constructor
  · intro t ht
    simp [diff_hash, ht]
  · refine ⟨hexEncode (sha256Bytes (utf8Bytes s)), rfl, ?_, ?_⟩
    · rw [hexEncode_length, sha256Bytes_length]
    · exact hexEncode_mem _ fun b hb => sha256Bytes_lt _ hb

/-- C9 witness: the theorem instantiated at the one-character diff "x". -/
theorem atomc_C9_witness :
    diff_hash "x" = diff_hash "x"
    ∧ ∃ d : List Char, diff_hash "x" = "sha256:" ++ String.mk d
        ∧ d.length = 64 ∧ ∀ c ∈ d, c ∈ hexChars :=
  ⟨(atomc_C9 "x").1 "x" rfl, (atomc_C9 "x").2⟩

/- ===== Helper lemmas: staging verification. ===== -/

theorem verify_staged_files_fst (env : GitEnv) (tr : List GitCmd) (unit : CommitUnit) :
    (verify_staged_files env tr unit).1 = tr ++ [GitCmd.diffStagedNameOnly] := by
  simp only [verify_staged_files, list_staged_files, run_git]
  cases h : env tr GitCmd.diffStagedNameOnly <;> simp [h] <;> split_ifs <;> simp

/-- C4: after staging, the staged read-back must be non-empty and a subset
of the unit's declared files: with the read returning the parsed set,
verification succeeds iff that set is non-empty and every staged file is
declared (so a non-empty strict subset of the declared files passes); an
empty staged set yields the staged-diff-empty error; a non-empty set with a
file outside the declared set yields the staged-files-mismatch error
carrying the declared and actual lists; and when verification fails the
unit is not committed - the stage, verify, commit chain stops at the read,
issuing no commit invocation. -/
theorem atomc_C4 (env : GitEnv) (tr : List GitCmd) (unit : CommitUnit) (out : String)
    (h : env tr GitCmd.diffStagedNameOnly = Except.ok out) :
    ((verify_staged_files env tr unit).2 = Except.ok () ↔
      (parse_staged out ≠ [] ∧ ∀ f ∈ parse_staged out, f ∈ unit.files))
    ∧ (parse_staged out = [] →
        verify_staged_files env tr unit =
          (tr ++ [GitCmd.diffStagedNameOnly],
           Except.error (GitError.stagedDiffEmpty unit.id)))
    ∧ (parse_staged out ≠ [] → (∃ f ∈ parse_staged out, f ∉ unit.files) →
        verify_staged_files env tr unit =
          (tr ++ [GitCmd.diffStagedNameOnly],
           Except.error (GitError.stagedFilesMismatch unit.id unit.files (parse_staged out))))
    ∧ (∀ tr0 fps e, stage_files env tr0 fps = (tr, Except.ok ()) →
        (verify_staged_files env tr unit).2 = Except.error e →
        stage_verify_commit env tr0 unit fps =
          (tr ++ [GitCmd.diffStagedNameOnly], Except.error e)) := by
  have hred : verify_staged_files env tr unit =
      (tr ++ [GitCmd.diffStagedNameOnly],
       if (parse_staged out).isEmpty then
         Except.error (GitError.stagedDiffEmpty unit.id)
       else if !((parse_staged out).all fun f => unit.files.contains f) ||
           (parse_staged out).isEmpty then
         Except.error (GitError.stagedFilesMismatch unit.id unit.files (parse_staged out))
       else Except.ok ()) := by
    simp only [verify_staged_files, list_staged_files, run_git, h]
    split_ifs <;> simp_all
  refine ⟨?_, ?_, ?_, ?_⟩
  · rw [hred]
    by_cases he : parse_staged out = []
    · simp [he]
    · by_cases ha : (parse_staged out).all (fun f => unit.files.contains f) = true
      · simp_all [List.isEmpty_iff, List.all_eq_true]
      · simp_all [List.isEmpty_iff, List.all_eq_true]
  · intro he
    rw [hred]
    simp [he]
  · intro he hex
    obtain ⟨f, hf, hfn⟩ := hex
    rw [hred]
    have ha : ¬ ((parse_staged out).all fun f => unit.files.contains f) = true := by
      simp only [List.all_eq_true]
      intro hall
      exact hfn (by simpa using hall f hf)
    simp [he, ha, List.isEmpty_iff]
    try exact ⟨f, hf, hfn⟩
  · intro tr0 fps e hstage hv
    have hpair : verify_staged_files env tr unit =
        (tr ++ [GitCmd.diffStagedNameOnly], Except.error e) := by
      have hfst := verify_staged_files_fst env tr unit
      rcases hvv : verify_staged_files env tr unit with ⟨a, b⟩
      rw [hvv] at hfst hv
      simp only at hfst hv
      subst hfst
      subst hv
      rfl
    simp [stage_verify_commit, hstage, hpair]

/-- C4 witness: the staged read-back a.txt is a non-empty strict subset of
the declared files a.txt, b.txt, so verification passes. -/
theorem atomc_C4_witness :
    (verify_staged_files envStagedOne [] unitAB).2 = Except.ok () :=
  (atomc_C4 envStagedOne [] unitAB "a.txt\x00" rfl).1.mpr (by decide)

/- ===== Helper lemmas: command traces of the apply engine. ===== -/

theorem diffQuery_not_commit {c : GitCmd} (h : isDiffQueryCmd c = true) :
    isCommitCmd c = false := by
  cases c <;> simp_all [isDiffQueryCmd, isCommitCmd]

theorem stage_files_trace (env : GitEnv) (tr : List GitCmd) (files : List String) :
    ∃ ext, (stage_files env tr files).1 = tr ++ ext
      ∧ ∀ c ∈ ext, isDiffQueryCmd c = false ∧ isCommitCmd c = false := by
  by_cases hf : files.isEmpty
  · exact ⟨[], by simp [stage_files, hf], by simp⟩
  · simp only [stage_files, hf, run_git]
    cases h1 : env tr (GitCmd.reset files) with
    | error e => exact ⟨[GitCmd.reset files], by simp, by simp [isDiffQueryCmd, isCommitCmd]⟩
    | ok o1 =>
      cases h2 : env (tr ++ [GitCmd.reset files]) (GitCmd.add files) with
      | error e =>
        refine ⟨[GitCmd.reset files, GitCmd.add files], by simp [h2], ?_⟩
        simp [isDiffQueryCmd, isCommitCmd]
      | ok o2 =>
        refine ⟨[GitCmd.reset files, GitCmd.add files], by simp [h2], ?_⟩
        simp [isDiffQueryCmd, isCommitCmd]

theorem reset_files_trace (env : GitEnv) (tr : List GitCmd) (files : List String) :
    ∃ ext, (reset_files env tr files).1 = tr ++ ext
      ∧ ∀ c ∈ ext, isDiffQueryCmd c = false ∧ isCommitCmd c = false := by
  by_cases hf : files.isEmpty
  · exact ⟨[], by simp [reset_files, hf], by simp⟩
  · simp only [reset_files, hf, run_git]
    cases h1 : env tr (GitCmd.reset files) with
    | error e => exact ⟨[GitCmd.reset files], by simp, by simp [isDiffQueryCmd, isCommitCmd]⟩
    | ok o1 => exact ⟨[GitCmd.reset files], by simp, by simp [isDiffQueryCmd, isCommitCmd]⟩

theorem verify_staged_files_trace (env : GitEnv) (tr : List GitCmd) (unit : CommitUnit) :
    ∃ ext, (verify_staged_files env tr unit).1 = tr ++ ext
      ∧ ∀ c ∈ ext, isDiffQueryCmd c = false ∧ isCommitCmd c = false := by
  refine ⟨[GitCmd.diffStagedNameOnly], verify_staged_files_fst env tr unit, ?_⟩
  simp [isDiffQueryCmd, isCommitCmd]

theorem commit_unit_trace (env : GitEnv) (tr : List GitCmd) (unit : CommitUnit) :
    ∃ ext, (commit_unit env tr unit).1 = tr ++ ext
      ∧ ∀ c ∈ ext, isDiffQueryCmd c = false := by
  simp only [commit_unit, run_git]
  cases h1 : env tr (GitCmd.commit (commit_header unit) unit.body) with
  | error e =>
    exact ⟨[GitCmd.commit (commit_header unit) unit.body], by simp, by simp [isDiffQueryCmd]⟩
  | ok o1 =>
    cases h2 : env (tr ++ [GitCmd.commit (commit_header unit) unit.body]) GitCmd.revParseHead with
    | error e =>
      refine ⟨[GitCmd.commit (commit_header unit) unit.body, GitCmd.revParseHead],
        by simp [h2], ?_⟩
      simp [isDiffQueryCmd]
    | ok o2 =>
      refine ⟨[GitCmd.commit (commit_header unit) unit.body, GitCmd.revParseHead],
        by simp [h2], ?_⟩
      simp [isDiffQueryCmd]

theorem stage_verify_commit_trace (env : GitEnv) (tr : List GitCmd) (unit : CommitUnit)
    (fps : List String) :
    ∃ ext, (stage_verify_commit env tr unit fps).1 = tr ++ ext
      ∧ ∀ c ∈ ext, isDiffQueryCmd c = false := by
  obtain ⟨e1, he1, hq1⟩ := stage_files_trace env tr fps
  simp only [stage_verify_commit]
  cases hs : stage_files env tr fps with
  | mk tra ra =>
    rw [hs] at he1
    simp only at he1
    subst he1
    cases ra with
    | error e => exact ⟨e1, rfl, fun c hc => (hq1 c hc).1⟩
    | ok u =>
      obtain ⟨e2, he2, hq2⟩ := verify_staged_files_trace env (tr ++ e1) unit
      cases hv : verify_staged_files env (tr ++ e1) unit with
      | mk trb rb =>
        rw [hv] at he2
        simp only at he2
        subst he2
        cases rb with
        | error e =>
          refine ⟨e1 ++ e2, by simp [hv], fun c hc => ?_⟩
          rcases List.mem_append.mp hc with hc | hc
          · exact (hq1 c hc).1
          · exact (hq2 c hc).1
        | ok u2 =>
          obtain ⟨e3, he3, hq3⟩ := commit_unit_trace env ((tr ++ e1) ++ e2) unit
          refine ⟨e1 ++ e2 ++ e3, by
            simp only [List.append_assoc] at hv he3 ⊢
            simp [hv, he3], fun c hc => ?_⟩
          rcases List.mem_append.mp hc with hc | hc
          · rcases List.mem_append.mp hc with hc | hc
            · exact (hq1 c hc).1
            · exact (hq2 c hc).1
          · exact hq3 c hc

theorem list_untracked_files_trace (env : GitEnv) (tr : List GitCmd) (repo : String) :
    ∃ ext, (list_untracked_files env tr repo).1 = tr ++ ext
      ∧ ∀ c ∈ ext, isDiffQueryCmd c = true := by
  simp only [list_untracked_files, run_git]
  cases h : env tr GitCmd.statusPorcelain with
  | error e => exact ⟨[GitCmd.statusPorcelain], by simp, by simp [isDiffQueryCmd]⟩
  | ok o => exact ⟨[GitCmd.statusPorcelain], by simp, by simp [isDiffQueryCmd]⟩

theorem untracked_diffs_trace (env : GitEnv) (ps : List String) :
    ∀ tr parts, ∃ ext, (untracked_diffs env tr parts ps).1 = tr ++ ext
      ∧ ∀ c ∈ ext, isDiffQueryCmd c = true := by
  induction ps with
  | nil =>
    intro tr parts
    exact ⟨[], by simp [untracked_diffs], by simp⟩
  | cons p ps ih =>
    intro tr parts
    simp only [untracked_diffs, run_git]
    cases h : env tr (GitCmd.diffNoIndex p) with
    | error e => exact ⟨[GitCmd.diffNoIndex p], by simp, by simp [isDiffQueryCmd]⟩
    | ok d =>
      obtain ⟨ext, h1, h2⟩ := ih (tr ++ [GitCmd.diffNoIndex p]) (push_if_non_empty parts d)
      refine ⟨GitCmd.diffNoIndex p :: ext, by simp [h1], fun c hc => ?_⟩
      rcases List.mem_cons.mp hc with rfl | hc
      · rfl
      · exact h2 c hc

theorem mode_parts_trace (env : GitEnv) (tr : List GitCmd) (mode : DiffMode) :
    ∃ ext, (mode_parts env tr mode).1 = tr ++ ext
      ∧ ∀ c ∈ ext, isDiffQueryCmd c = true := by
  cases mode with
  | worktree =>
    simp only [mode_parts, run_git]
    cases h : env tr GitCmd.diffWorktree with
    | error e => exact ⟨[GitCmd.diffWorktree], by simp, by simp [isDiffQueryCmd]⟩
    | ok d => exact ⟨[GitCmd.diffWorktree], by simp, by simp [isDiffQueryCmd]⟩
  | staged =>
    simp only [mode_parts, run_git]
    cases h : env tr GitCmd.diffStaged with
    | error e => exact ⟨[GitCmd.diffStaged], by simp, by simp [isDiffQueryCmd]⟩
    | ok d => exact ⟨[GitCmd.diffStaged], by simp, by simp [isDiffQueryCmd]⟩
  | all =>
    simp only [mode_parts, run_git]
    cases h1 : env tr GitCmd.diffWorktree with
    | error e => exact ⟨[GitCmd.diffWorktree], by simp, by simp [isDiffQueryCmd]⟩
    | ok d =>
      cases h2 : env (tr ++ [GitCmd.diffWorktree]) GitCmd.diffStaged with
      | error e =>
        refine ⟨[GitCmd.diffWorktree, GitCmd.diffStaged], by simp [h2], ?_⟩
        simp [isDiffQueryCmd]
      | ok o =>
        refine ⟨[GitCmd.diffWorktree, GitCmd.diffStaged], by simp [h2], ?_⟩
        simp [isDiffQueryCmd]

theorem compute_diff_trace (env : GitEnv) (tr : List GitCmd) (repo : String)
    (mode : DiffMode) (iu : Bool) :
    ∃ ext, (compute_diff env tr repo mode iu).1 = tr ++ ext
      ∧ ∀ c ∈ ext, isDiffQueryCmd c = true := by
  obtain ⟨e1, he1, hq1⟩ := mode_parts_trace env tr mode
  simp only [compute_diff]
  cases hm : mode_parts env tr mode with
  | mk tra ra =>
    rw [hm] at he1
    simp only at he1
    subst he1
    cases ra with
    | error e => exact ⟨e1, rfl, hq1⟩
    | ok parts =>
      cases hiu : iu with
      | false => exact ⟨e1, rfl, hq1⟩
      | true =>
        obtain ⟨e2, he2, hq2⟩ := list_untracked_files_trace env (tr ++ e1) repo
        cases hl : list_untracked_files env (tr ++ e1) repo with
        | mk trb rb =>
          rw [hl] at he2
          simp only at he2
          subst he2
          cases rb with
          | error e =>
            refine ⟨e1 ++ e2, by simp [hl], fun c hc => ?_⟩
            rcases List.mem_append.mp hc with hc | hc
            · exact hq1 c hc
            · exact hq2 c hc
          | ok paths =>
            obtain ⟨e3, he3, hq3⟩ := untracked_diffs_trace env paths ((tr ++ e1) ++ e2) parts
            cases hu : untracked_diffs env ((tr ++ e1) ++ e2) parts paths with
            | mk trc rc =>
              rw [hu] at he3
              simp only at he3
              subst he3
              cases rc with
              | error e =>
                refine ⟨e1 ++ e2 ++ e3, by
                  simp only [List.append_assoc] at hl hu ⊢
                  simp [hl, hu], fun c hc => ?_⟩
                rcases List.mem_append.mp hc with hc | hc
                · rcases List.mem_append.mp hc with hc | hc
                  · exact hq1 c hc
                  · exact hq2 c hc
                · exact hq3 c hc
              | ok parts2 =>
                refine ⟨e1 ++ e2 ++ e3, by
                  simp only [List.append_assoc] at hl hu ⊢
                  simp [hl, hu], fun c hc => ?_⟩
                rcases List.mem_append.mp hc with hc | hc
                · rcases List.mem_append.mp hc with hc | hc
                  · exact hq1 c hc
                  · exact hq2 c hc
                · exact hq3 c hc

/- ===== C1: cleanup on error. ===== -/

/-- C1 counterexample: with cleanup-on-error requested, a unit failing the
hunks check (step 2) is rejected with the hunks error while the issued
command trace stays empty - in particular no reset of the unit's declared
files is issued, contradicting the claim that any failure in steps 2-6 is
followed by a best-effort unstage. -/
theorem atomc_C1_counterexample :
    reqHunksCleanup.cleanup_on_error = true
    ∧ unitHunks.files = ["a.txt"]
    ∧ apply_plan envEmptyOut [] reqHunksCleanup =
        ([], Except.error (GitError.hunksNotSupported "u3"))
    ∧ ∀ fs, GitCmd.reset fs ∉ ([] : List GitCmd) :=
  ⟨rfl, rfl, rfl, by simp⟩

/-- C1 (as amended): when a unit fails in the staging, staged-verification
or commit chain (steps 4-6), apply_plan with cleanup-on-error requested
issues a best-effort reset of the unit's declared file paths - the reset's
own outcome is discarded, only its trace is kept - and returns the original
error, while without the flag it returns the error directly; failures of
the hunks check (step 2) or of the declared-file presence check (step 3)
return their error immediately with no cleanup reset in either case; in
all cases the remaining units are not processed (the outcome does not
depend on them). -/
theorem atomc_C1 (env : GitEnv) (req : ApplyRequest) (exph : String)
    (df : List String) (tr tr1 : List GitCmd) (unit : CommitUnit)
    (rest : List CommitUnit) (results : List ApplyResult)
    (hv : verify_diff_hash env tr req.repo req.source req.diff_mode
      req.include_untracked exph = (tr1, Except.ok ())) :
    (∀ tr2 e, unit.hunks = [] →
      unit.files.find? (fun file => !df.contains file) = none →
      stage_verify_commit env tr1 unit
          (unit.files.map fun file => req.repo ++ "/" ++ file) = (tr2, Except.error e) →
      apply_plan_units env req exph df tr (unit :: rest) results =
        (if req.cleanup_on_error then
          (reset_files env tr2 (unit.files.map fun file => req.repo ++ "/" ++ file)).1
         else tr2, Except.error e))
    ∧ (unit.hunks ≠ [] →
      apply_plan_units env req exph df tr (unit :: rest) results =
        (tr1, Except.error (GitError.hunksNotSupported unit.id)))
    ∧ (∀ f, unit.hunks = [] →
      unit.files.find? (fun file => !df.contains file) = some f →
      apply_plan_units env req exph df tr (unit :: rest) results =
        (tr1, Except.error (GitError.planFileMissing unit.id f))) := by
  refine ⟨?_, ?_, ?_⟩
  · intro tr2 e hh hfind hsvc
    simp only [apply_plan_units, hv, hh, hfind, hsvc, List.isEmpty_nil, Bool.not_true,
      Bool.false_eq_true, if_false]
    split_ifs <;> simp
  · intro hh
    simp only [apply_plan_units, hv]
    have : unit.hunks.isEmpty = false := by
      cases hu : unit.hunks with
      | nil => exact absurd hu hh
      | cons a as => simp
    simp [this]
  · intro f hh hfind
    simp only [apply_plan_units, hv, hh, hfind]
    simp

/-- C1 witness (amended claim): a concrete run where git add fails while
staging, cleanup-on-error is set, and the trace ends with the cleanup
reset of the unit's declared path while the original add error is
returned. -/
theorem atomc_C1_witness :
    apply_plan_units envAddFails reqCleanup "tok" (diff_files diffA) [] [unitA] [] =
      ([GitCmd.reset ["repo/a.txt"], GitCmd.add ["repo/a.txt"],
        GitCmd.reset ["repo/a.txt"]],
       Except.error (GitError.commandFailed "git add" "boom")) := by
  have h := ((atomc_C1 envAddFails reqCleanup "tok" (diff_files diffA) [] [] unitA [] []
      rfl).1) [GitCmd.reset ["repo/a.txt"], GitCmd.add ["repo/a.txt"]]
      (GitError.commandFailed "git add" "boom") rfl (by decide) rfl
  exact h.trans (by rfl)

/- ===== C10: a unit with no declared files. ===== -/

/-- C10: a unit declaring no files (and no hunks) is never committed: the
staging step issues no git invocation (stage_files on the empty path list
is a no-op), and the staged-set verification necessarily fails - with the
staged-diff-empty error when the read-back staged set is empty, and the
staged-files-mismatch error when it is non-empty, since a non-empty set
cannot be a subset of the empty declared set; in every case the unit loop
returns an error and no commit invocation is added to the trace. -/
theorem atomc_C10 (env : GitEnv) (req : ApplyRequest) (exph : String)
    (df : List String) (tr tr1 : List GitCmd) (unit : CommitUnit)
    (rest : List CommitUnit) (results : List ApplyResult)
    (hfiles : unit.files = []) (hhunks : unit.hunks = [])
    (hv : verify_diff_hash env tr req.repo req.source req.diff_mode
      req.include_untracked exph = (tr1, Except.ok ())) :
    stage_files env tr1 ([] : List String) = (tr1, Except.ok ())
    ∧ (∀ out, env tr1 GitCmd.diffStagedNameOnly = Except.ok out →
        apply_plan_units env req exph df tr (unit :: rest) results =
          (tr1 ++ [GitCmd.diffStagedNameOnly],
           Except.error (if parse_staged out = [] then GitError.stagedDiffEmpty unit.id
             else GitError.stagedFilesMismatch unit.id unit.files (parse_staged out))))
    ∧ (∀ tr' r, apply_plan_units env req exph df tr (unit :: rest) results = (tr', r) →
        (∃ e, r = Except.error e)
        ∧ ∃ ext, tr' = tr1 ++ ext ∧ ∀ c ∈ ext, isCommitCmd c = false) := by
  have hstep : ∀ tr2 e', verify_staged_files env tr1 unit = (tr2, Except.error e') →
      apply_plan_units env req exph df tr (unit :: rest) results = (tr2, Except.error e') := by
    intro tr2 e' hv2
    simp only [apply_plan_units, hv, hhunks, hfiles]
    simp only [stage_verify_commit, stage_files, hfiles]
    simp [hv2, reset_files]
  have hverr : ∀ out, env tr1 GitCmd.diffStagedNameOnly = Except.ok out →
      verify_staged_files env tr1 unit =
        (tr1 ++ [GitCmd.diffStagedNameOnly],
         Except.error (if parse_staged out = [] then GitError.stagedDiffEmpty unit.id
           else GitError.stagedFilesMismatch unit.id unit.files (parse_staged out))) := by
    intro out hout
    simp only [verify_staged_files, list_staged_files, run_git, hout]
    by_cases hpe : parse_staged out = []
    · simp [hpe]
    · have hall : ((parse_staged out).all fun f => unit.files.contains f) = false := by
        cases hps : parse_staged out with
        | nil => exact absurd hps hpe
        | cons a as => simp [hfiles]
      simp [hpe, hall, List.isEmpty_iff]
      cases hps : parse_staged out with
      | nil => exact absurd hps hpe
      | cons a as => exact ⟨a, by simp [hps], by simp [hfiles]⟩
  refine ⟨by simp [stage_files], ?_, ?_⟩
  · intro out hout
    exact hstep _ _ (hverr out hout)
  · intro tr' r happ
    cases hout : env tr1 GitCmd.diffStagedNameOnly with
    | error e0 =>
      have hv2 : verify_staged_files env tr1 unit =
          (tr1 ++ [GitCmd.diffStagedNameOnly], Except.error e0) := by
        simp [verify_staged_files, list_staged_files, run_git, hout]
      have := hstep _ _ hv2
      rw [this] at happ
      injection happ with h1 h2
      refine ⟨⟨e0, h2.symm⟩, [GitCmd.diffStagedNameOnly], h1.symm, ?_⟩
      simp [isCommitCmd]
    | ok out =>
      have := hstep _ _ (hverr out hout)
      rw [this] at happ
      injection happ with h1 h2
      refine ⟨⟨_, h2.symm⟩, [GitCmd.diffStagedNameOnly], h1.symm, ?_⟩
      simp [isCommitCmd]

/-- C10 witness: a concrete no-files unit: nothing is staged, the read-back
is empty, and the unit is rejected with the staged-diff-empty error after
the single staged read invocation. -/
theorem atomc_C10_witness :
    apply_plan_units envEmptyOut reqNoFiles "tok" (diff_files diffA) [] [unitNoFiles] [] =
      ([GitCmd.diffStagedNameOnly], Except.error (GitError.stagedDiffEmpty "u4")) := by
  have h := ((atomc_C10 envEmptyOut reqNoFiles "tok" (diff_files diffA) [] [] unitNoFiles
      [] [] rfl rfl rfl).2.1) "" rfl
  exact h.trans (by rfl)

/- ===== C3: hash re-verification per source. ===== -/

theorem apply_plan_units_diff_trace (env : GitEnv) (req : ApplyRequest) (exph : String)
    (df : List String) (hsrc : req.source = InputSource.diff) :
    ∀ (units : List CommitUnit) (tr : List GitCmd) (results : List ApplyResult),
      ∃ ext, (apply_plan_units env req exph df tr units results).1 = tr ++ ext
        ∧ ∀ c ∈ ext, isDiffQueryCmd c = false := by
  intro units
  induction units with
  | nil =>
    intro tr results
    exact ⟨[], by simp [apply_plan_units], by simp⟩
  | cons unit rest ih =>
    intro tr results
    have hv : verify_diff_hash env tr req.repo req.source req.diff_mode
        req.include_untracked exph = (tr, Except.ok ()) := by
      rw [hsrc]
      rfl
    cases hh : unit.hunks.isEmpty with
    | false =>
      refine ⟨[], ?_, by simp⟩
      simp only [apply_plan_units, hv, hh]
      simp
    | true =>
      cases hfind : unit.files.find? (fun file => !df.contains file) with
      | some f =>
        refine ⟨[], ?_, by simp⟩
        simp only [apply_plan_units, hv, hh, hfind]
        simp
      | none =>
        obtain ⟨e1, he1, hq1⟩ := stage_verify_commit_trace env tr unit
          (unit.files.map fun file => req.repo ++ "/" ++ file)
        cases hsvc : stage_verify_commit env tr unit
            (unit.files.map fun file => req.repo ++ "/" ++ file) with
        | mk tr2 r =>
          rw [hsvc] at he1
          simp only at he1
          subst he1
          cases r with
          | ok hash =>
            obtain ⟨e2, he2, hq2⟩ := ih (tr ++ e1)
              (results ++ [{ id := unit.id, status := ApplyStatus.applied,
                             commit_hash := some hash, error := none }])
            refine ⟨e1 ++ e2, ?_, ?_⟩
            · simp only [apply_plan_units, hv, hh, hfind, hsvc]
              simp only [List.append_assoc] at he2 ⊢
              simp [he2]
            · intro c hc
              rcases List.mem_append.mp hc with hc | hc
              · exact hq1 c hc
              · exact hq2 c hc
          | error e =>
            by_cases hcl : req.cleanup_on_error
            · obtain ⟨e2, he2, hq2⟩ := reset_files_trace env (tr ++ e1)
                (unit.files.map fun file => req.repo ++ "/" ++ file)
              refine ⟨e1 ++ e2, ?_, ?_⟩
              · simp only [apply_plan_units, hv, hh, hfind, hsvc, hcl]
                simp only [List.append_assoc] at he2 ⊢
                simp [he2]
              · intro c hc
                rcases List.mem_append.mp hc with hc | hc
                · exact hq1 c hc
                · exact (hq2 c hc).1
            · refine ⟨e1, ?_, fun c hc => hq1 c hc⟩
              simp only [apply_plan_units, hv, hh, hfind, hsvc, if_neg hcl]
              simp

/-- C3: the hash guard is applied before the first unit and again before
every unit exactly when the diff came from the repository, and never when
it was supplied by the caller.  For a Repo-source request, if the freshly
recomputed diff fingerprints differently from the expected token, the call
aborts at once with a hash-mismatch error carrying both tokens, having
issued only diff-recomputation commands and no commit - both at the head
of apply_plan and at the head of every unit iteration; for a Diff-source
request the verification returns immediately and the whole apply issues no
diff-recomputation command at all. -/
theorem atomc_C3 (env : GitEnv) (tr : List GitCmd) (req : ApplyRequest) :
    (req.source = InputSource.diff →
      verify_diff_hash env tr req.repo req.source req.diff_mode req.include_untracked
        (req.expected_diff_hash.getD (diff_hash req.diff)) = (tr, Except.ok ())
      ∧ ∃ ext, (apply_plan env tr req).1 = tr ++ ext
          ∧ ∀ c ∈ ext, isDiffQueryCmd c = false)
    ∧ (req.source = InputSource.repo →
      ∀ cur tr1, compute_diff env tr req.repo req.diff_mode req.include_untracked =
          (tr1, Except.ok cur) →
        diff_hash cur ≠ req.expected_diff_hash.getD (diff_hash req.diff) →
        apply_plan env tr req =
          (tr1, Except.error (GitError.diffHashMismatch
            (req.expected_diff_hash.getD (diff_hash req.diff)) (diff_hash cur)))
        ∧ ∃ ext, tr1 = tr ++ ext ∧ ∀ c ∈ ext, isCommitCmd c = false)
    ∧ (req.source = InputSource.repo →
      ∀ exph df (unit : CommitUnit) (rest : List CommitUnit) results tr0 cur tr1,
        compute_diff env tr0 req.repo req.diff_mode req.include_untracked =
          (tr1, Except.ok cur) →
        diff_hash cur ≠ exph →
        apply_plan_units env req exph df tr0 (unit :: rest) results =
          (tr1, Except.error (GitError.diffHashMismatch exph (diff_hash cur)))
        ∧ ∃ ext, tr1 = tr0 ++ ext ∧ ∀ c ∈ ext, isCommitCmd c = false) := by
  have hmis : ∀ tr0 exph cur tr1,
      compute_diff env tr0 req.repo req.diff_mode req.include_untracked =
        (tr1, Except.ok cur) →
      diff_hash cur ≠ exph →
      verify_diff_hash env tr0 req.repo InputSource.repo req.diff_mode
        req.include_untracked exph =
        (tr1, Except.error (GitError.diffHashMismatch exph (diff_hash cur))) := by
    intro tr0 exph cur tr1 hc hne
    simp only [verify_diff_hash, hc]
    have hbne : (diff_hash cur != exph) = true := by simp [bne_iff_ne, hne]
    simp [hbne]
  have hext : ∀ tr0 cur tr1,
      compute_diff env tr0 req.repo req.diff_mode req.include_untracked =
        (tr1, Except.ok cur) →
      ∃ ext, tr1 = tr0 ++ ext ∧ ∀ c ∈ ext, isCommitCmd c = false := by
    intro tr0 cur tr1 hc
    obtain ⟨ext, he, hq⟩ := compute_diff_trace env tr0 req.repo req.diff_mode
      req.include_untracked
    rw [hc] at he
    simp only at he
    exact ⟨ext, he, fun c hcm => diffQuery_not_commit (hq c hcm)⟩
  refine ⟨?_, ?_, ?_⟩
  · intro hsrc
    constructor
    · rw [hsrc]
      rfl
    · obtain ⟨e1, he1, hq1⟩ := apply_plan_units_diff_trace env req
        (req.expected_diff_hash.getD (diff_hash req.diff)) (diff_files req.diff)
        hsrc req.plan tr []
      refine ⟨e1, ?_, hq1⟩
      have hv : verify_diff_hash env tr req.repo req.source req.diff_mode
          req.include_untracked (req.expected_diff_hash.getD (diff_hash req.diff)) =
          (tr, Except.ok ()) := by
        rw [hsrc]
        rfl
      simp only [apply_plan, hv]
      exact he1
  · intro hsrc cur tr1 hc hne
    have hv := hmis tr (req.expected_diff_hash.getD (diff_hash req.diff)) cur tr1 hc hne
    rw [← hsrc] at hv
    constructor
    · simp only [apply_plan, hv]
    · exact hext tr cur tr1 hc
  · intro hsrc exph df unit rest results tr0 cur tr1 hc hne
    have hv := hmis tr0 exph cur tr1 hc hne
    rw [← hsrc] at hv
    constructor
    · simp only [apply_plan_units, hv]
    · exact hext tr0 cur tr1 hc

/-- C3 witness: a Repo-source request whose recomputed worktree diff "X"
fingerprints differently from the expected token "tok" aborts with the
hash-mismatch error carrying both tokens after the single recomputation
command, committing nothing. -/
theorem atomc_C3_witness :
    apply_plan envWorktreeX [] reqRepoX =
      ([GitCmd.diffWorktree],
       Except.error (GitError.diffHashMismatch "tok" (diff_hash "X")))
    ∧ ∃ ext, [GitCmd.diffWorktree] = ([] : List GitCmd) ++ ext
        ∧ ∀ c ∈ ext, isCommitCmd c = false :=
  (atomc_C3 envWorktreeX [] reqRepoX).2.1 rfl "X" [GitCmd.diffWorktree] rfl
    (fun h => by
      have hl := diff_hash_data_length "X"
      rw [h] at hl
      exact absurd hl (by decide))

/- ===== C2: result list contract. ===== -/

theorem apply_plan_units_ok_shape (env : GitEnv) (req : ApplyRequest) (exph : String)
    (df : List String) :
    ∀ (units : List CommitUnit) (tr : List GitCmd) (results : List ApplyResult)
      (tr' : List GitCmd) (rs : List ApplyResult),
      apply_plan_units env req exph df tr units results = (tr', Except.ok rs) →
      ∃ news, rs = results ++ news
        ∧ List.Forall₂ (fun (r : ApplyResult) (u : CommitUnit) =>
            r.id = u.id ∧ r.status = ApplyStatus.applied
            ∧ (∃ h, r.commit_hash = some h) ∧ r.error = none) news units := by
  intro units
  induction units with
  | nil =>
    intro tr results tr' rs h
    simp only [apply_plan_units] at h
    injection h with h1 h2
    injection h2 with h3
    exact ⟨[], by rw [← h3]; simp, List.Forall₂.nil⟩
  | cons unit rest ih =>
    intro tr results tr' rs h
    cases hv : verify_diff_hash env tr req.repo req.source req.diff_mode
        req.include_untracked exph with
    | mk tra rv =>
      simp only [apply_plan_units, hv] at h
      cases rv with
      | error e => simp at h
      | ok u =>
        cases hh : unit.hunks.isEmpty with
        | false => simp [hh] at h
        | true =>
          cases hfind : unit.files.find? (fun file => !df.contains file) with
          | some f =>
            simp only [hh, hfind, Bool.not_true, Bool.false_eq_true, if_false] at h
            simp at h
          | none =>
            cases hsvc : stage_verify_commit env tra unit
                (unit.files.map fun file => req.repo ++ "/" ++ file) with
            | mk tr2 r =>
              cases r with
              | error e =>
                simp only [hh, hfind, Bool.not_true, Bool.false_eq_true, if_false] at h
                rw [hsvc] at h
                by_cases hcl : req.cleanup_on_error <;> simp [hcl] at h
              | ok hash =>
                simp only [hh, hfind, Bool.not_true, Bool.false_eq_true, if_false] at h
                simp only [hsvc] at h
                obtain ⟨news, hrs, hf2⟩ := ih tr2
                  (results ++ [{ id := unit.id, status := ApplyStatus.applied,
                                 commit_hash := some hash, error := none }]) tr' rs h
                refine ⟨{ id := unit.id, status := ApplyStatus.applied,
                          commit_hash := some hash, error := none } :: news, ?_, ?_⟩
                · rw [hrs]
                  simp
                · exact List.Forall₂.cons ⟨rfl, rfl, ⟨hash, rfl⟩, rfl⟩ hf2

theorem apply_plan_units_error_irrel (env : GitEnv) (req : ApplyRequest) (exph : String)
    (df : List String) :
    ∀ (units : List CommitUnit) (tr : List GitCmd) (results results' : List ApplyResult)
      (tr' : List GitCmd) (e : GitError),
      apply_plan_units env req exph df tr units results = (tr', Except.error e) →
      apply_plan_units env req exph df tr units results' = (tr', Except.error e) := by
  intro units
  induction units with
  | nil =>
    intro tr results results' tr' e h
    simp only [apply_plan_units] at h
    injection h with h1 h2
    exact absurd h2 (by simp)
  | cons unit rest ih =>
    intro tr results results' tr' e h
    cases hv : verify_diff_hash env tr req.repo req.source req.diff_mode
        req.include_untracked exph with
    | mk tra rv =>
      simp only [apply_plan_units, hv] at h ⊢
      cases rv with
      | error e0 => exact h
      | ok u =>
        cases hh : unit.hunks.isEmpty with
        | false =>
          simp only [hh, Bool.not_false] at h ⊢
          exact h
        | true =>
          cases hfind : unit.files.find? (fun file => !df.contains file) with
          | some f =>
            simp only [hh, hfind, Bool.not_true, Bool.false_eq_true, if_false] at h ⊢
            exact h
          | none =>
            cases hsvc : stage_verify_commit env tra unit
                (unit.files.map fun file => req.repo ++ "/" ++ file) with
            | mk tr2 r =>
              cases r with
              | ok hash =>
                simp only [hh, hfind, hsvc, Bool.not_true, Bool.false_eq_true,
                  if_false] at h ⊢
                exact ih tr2 _ _ tr' e h
              | error e1 =>
                simp only [hh, hfind, hsvc, Bool.not_true, Bool.false_eq_true,
                  if_false] at h ⊢
                exact h

/-- C2: apply_plan returns the accumulated result list only when every
unit succeeds: a successful call returns exactly one ApplyResult per plan
unit, in plan order, each Applied with some commit hash and no error
payload; and a failing call returns only the error - the returned value is
independent of the results accumulated for units already committed in the
same call, so those entries are discarded. -/
theorem atomc_C2 (env : GitEnv) (tr : List GitCmd) (req : ApplyRequest) :
    (∀ tr' rs, apply_plan env tr req = (tr', Except.ok rs) →
      List.Forall₂ (fun (r : ApplyResult) (u : CommitUnit) =>
        r.id = u.id ∧ r.status = ApplyStatus.applied
        ∧ (∃ h, r.commit_hash = some h) ∧ r.error = none) rs req.plan)
    ∧ (∀ exph df (units : List CommitUnit) (results results' : List ApplyResult)
        tr0 tr' e,
        apply_plan_units env req exph df tr0 units results = (tr', Except.error e) →
        apply_plan_units env req exph df tr0 units results' = (tr', Except.error e)) := by
  constructor
  · intro tr' rs h
    cases hv : verify_diff_hash env tr req.repo req.source req.diff_mode
        req.include_untracked (req.expected_diff_hash.getD (diff_hash req.diff)) with
    | mk tra rv =>
      simp only [apply_plan, hv] at h
      cases rv with
      | error e => simp at h
      | ok u =>
        obtain ⟨news, hrs, hf⟩ := apply_plan_units_ok_shape env req _ _ req.plan tra [] tr' rs h
        simpa [hrs] using hf
  · intro exph df units results results' tr0 tr' e h
    exact apply_plan_units_error_irrel env req exph df units tr0 results results' tr' e h

/-- C2 witness: a one-unit plan applied successfully end to end, yielding
exactly one Applied result carrying the resolved commit hash. -/
theorem atomc_C2_witness :
    apply_plan envAllOk [] reqDiffA =
      ([GitCmd.reset ["repo/a.txt"], GitCmd.add ["repo/a.txt"],
        GitCmd.diffStagedNameOnly,
        GitCmd.commit "feat[core]: add the core apply engine with staged set verification"
          ["body line"],
        GitCmd.revParseHead],
       Except.ok [{ id := "u1", status := ApplyStatus.applied,
                    commit_hash := some "abc123", error := none }])
    ∧ List.Forall₂ (fun (r : ApplyResult) (u : CommitUnit) =>
        r.id = u.id ∧ r.status = ApplyStatus.applied
        ∧ (∃ h, r.commit_hash = some h) ∧ r.error = none)
      [{ id := "u1", status := ApplyStatus.applied,
         commit_hash := some "abc123", error := none }]
      reqDiffA.plan :=
  ⟨rfl, (atomc_C2 envAllOk [] reqDiffA).1 _ _ rfl⟩

/- ===== C8: compute_diff in All mode. ===== -/

theorem push_if_non_empty_eq (xs : List String) (d : String) :
    push_if_non_empty xs d = xs ++ (if isBlank d then [] else [d]) := by
  by_cases hb : isBlank d <;> simp [push_if_non_empty, hb]

theorem untracked_diffs_ok (env : GitEnv) :
    ∀ (ps ds : List String) (tr : List GitCmd) (parts : List String),
      ds.length = ps.length →
      (∀ i (hi : i < ps.length) (hi' : i < ds.length),
        env (tr ++ (ps.take i).map GitCmd.diffNoIndex)
            (GitCmd.diffNoIndex (ps.get ⟨i, hi⟩)) =
          Except.ok (ds.get ⟨i, hi'⟩)) →
      untracked_diffs env tr parts ps =
        (tr ++ ps.map GitCmd.diffNoIndex,
         Except.ok (parts ++ ds.filter fun d => !isBlank d)) := by
  intro ps
  induction ps with
  | nil =>
    intro ds tr parts hlen henv
    cases ds with
    | nil => simp [untracked_diffs]
    | cons d ds => simp at hlen
  | cons p ps ih =>
    intro ds tr parts hlen henv
    cases ds with
    | nil => simp at hlen
    | cons d ds =>
      have h0 := henv 0 (by simp) (by simp)
      simp only [List.take_zero, List.map_nil, List.append_nil, List.get] at h0
      simp only [untracked_diffs, run_git, h0]
      have hrec := ih ds (tr ++ [GitCmd.diffNoIndex p]) (push_if_non_empty parts d)
        (by simpa using hlen)
        (fun i hi hi' => by
          have hstep := henv (i + 1) (by simpa using hi) (by simpa using hi')
          simpa [List.take_succ_cons, List.append_assoc] using hstep)
      rw [hrec]
      rw [push_if_non_empty_eq]
      by_cases hb : isBlank d <;>
        simp [hb, List.filter_cons, List.append_assoc]

/-- C8: compute_diff in All mode returns the worktree diff followed by the
staged diff, in that order, with the untracked-file diffs appended after
them when include_untracked is set; blank parts contribute nothing and the
remaining parts are joined with single newline separators. -/
theorem atomc_C8 (env : GitEnv) (tr : List GitCmd) (repo : String) (w s st : String)
    (hw : env tr GitCmd.diffWorktree = Except.ok w)
    (hs : env (tr ++ [GitCmd.diffWorktree]) GitCmd.diffStaged = Except.ok s) :
    (compute_diff env tr repo DiffMode.all false =
      (tr ++ [GitCmd.diffWorktree, GitCmd.diffStaged],
       Except.ok (joinWith "\n" ([w, s].filter fun d => !isBlank d))))
    ∧ (env (tr ++ [GitCmd.diffWorktree, GitCmd.diffStaged]) GitCmd.statusPorcelain =
        Except.ok st →
      ∀ ds, ds.length = (parse_untracked repo st).length →
        (∀ i (hi : i < (parse_untracked repo st).length) (hi' : i < ds.length),
          env ((tr ++ [GitCmd.diffWorktree, GitCmd.diffStaged, GitCmd.statusPorcelain]) ++
              ((parse_untracked repo st).take i).map GitCmd.diffNoIndex)
            (GitCmd.diffNoIndex ((parse_untracked repo st).get ⟨i, hi⟩)) =
          Except.ok (ds.get ⟨i, hi'⟩)) →
        compute_diff env tr repo DiffMode.all true =
          ((tr ++ [GitCmd.diffWorktree, GitCmd.diffStaged, GitCmd.statusPorcelain]) ++
            (parse_untracked repo st).map GitCmd.diffNoIndex,
           Except.ok (joinWith "\n" (([w, s] ++ ds).filter fun d => !isBlank d)))) := by
  have hparts : push_if_non_empty (push_if_non_empty [] w) s =
      [w, s].filter (fun d => !isBlank d) := by
    rw [push_if_non_empty_eq, push_if_non_empty_eq]
    by_cases h1 : isBlank w <;> by_cases h2 : isBlank s <;>
      simp [h1, h2, List.filter_cons]
  constructor
  · simp only [compute_diff, mode_parts, run_git, hw, hs, Bool.false_eq_true, if_false,
      hparts]
    simp
  · intro hst ds hlen henv
    have hst2 : env ((tr ++ [GitCmd.diffWorktree]) ++ [GitCmd.diffStaged])
        GitCmd.statusPorcelain = Except.ok st := by
      simpa using hst
    have hloop := untracked_diffs_ok env (parse_untracked repo st) ds
      (((tr ++ [GitCmd.diffWorktree]) ++ [GitCmd.diffStaged]) ++ [GitCmd.statusPorcelain])
      ([w, s].filter fun d => !isBlank d) hlen
      (fun i hi hi' => by
        have hstep := henv i hi hi'
        simpa [List.append_assoc] using hstep)
    simp only [compute_diff, mode_parts, run_git, hw, hs, if_true,
      list_untracked_files, hst2, hparts]
    rw [hloop]
    by_cases h1 : isBlank w <;> by_cases h2 : isBlank s <;>
      simp [h1, h2, List.filter_append, List.append_assoc, List.filter_cons]

/-- C8 witness: one blank-free worktree part W, staged part S and a single
untracked file diff U compose to the output W, S, U joined by newlines,
with the untracked part last. -/
theorem atomc_C8_witness :
    compute_diff envDiffAll [] "repo" DiffMode.all true =
      ([GitCmd.diffWorktree, GitCmd.diffStaged, GitCmd.statusPorcelain,
        GitCmd.diffNoIndex "repo/u.txt"],
       Except.ok "W\nS\nU") := by
  have h := (atomc_C8 envDiffAll [] "repo" "W" "S" "?? u.txt\x00" rfl rfl).2 rfl ["U"]
    rfl
    (fun i hi hi' => by
      have hl1 : (parse_untracked "repo" "?? u.txt\x00").length = 1 := rfl
      rw [hl1] at hi
      interval_cases i
      rfl)
  exact h.trans (by rfl)

end Atomc
